import Mathlib

/-!
Shallow embedding of the author-identity-resolution and record-normalization
library in `doi_common.py`, together with theorems settling the specification
claims about it.  Python strings are modelled as `List Char`, dictionaries as
structures with `Option` fields (a `none` field models an absent key), the
Mongo-backed identity registry as a `List IdRow` queried in natural order, and
Python exceptions as the `Except Err` monad.
-/

namespace DoiCommon

/-- Python strings are modelled as lists of characters. -/
abbrev Name := List Char

/-- Python exception kinds raised by the embedded code. -/
inductive Err where
  | keyError
  | nameError
  | indexError
  | typeError
  deriving DecidableEq, Repr

/-! ### Generic string helpers (Python built-ins) -/

/-- Does `hay` start with `needle`? (helper for substring search). -/
def startsList : Name → Name → Bool
  | [], _ => true
  | _ :: _, [] => false
  | a :: as, b :: bs => a = b && startsList as bs

/-- Python `needle in hay` substring test. -/
def hasSub (needle : Name) : Name → Bool
  | [] => needle.isEmpty
  | a :: rest => startsList needle (a :: rest) || hasSub needle rest

/-- Python `s.split(c)` for a one-character separator: keeps empty pieces,
never returns an empty list of pieces. -/
def splitChar (c : Char) : Name → List Name
  | [] => [[]]
  | a :: rest =>
    if a = c then [] :: splitChar c rest
    else
      match splitChar c rest with
      | [] => [[a]]
      | p :: ps => (a :: p) :: ps

/-- Split at every character satisfying `f`, keeping empty pieces. -/
def splitPred (f : Char → Bool) : Name → List Name
  | [] => [[]]
  | a :: rest =>
    if f a then [] :: splitPred f rest
    else
      match splitPred f rest with
      | [] => [[a]]
      | p :: ps => (a :: p) :: ps

/-- Python `s.split()` (no argument): split on whitespace, dropping empties. -/
def wordsWS (s : Name) : List Name :=
  (splitPred Char.isWhitespace s).filter (fun w => w ≠ [])

/-- Python `sep.join(pieces)`. -/
def joinSep (sep : Name) : List Name → Name
  | [] => []
  | [p] => p
  | p :: q :: ps => p ++ sep ++ joinSep sep (q :: ps)

/-- Python `''.join(pieces)`. -/
def joinAll : List Name → Name
  | [] => []
  | p :: ps => p ++ joinAll ps

/-- Python `s.split('/')[-1]`: the trailing path segment of an identifier. -/
def lastSegment (s : Name) : Name :=
  (splitChar (Char.ofNat 47) s).getLastD []

/-- The non-breaking-space character `\xa0`. -/
def nbspC : Char := Char.ofNat 160

/-- Python `s.replace('\xa0', ' ')`. -/
def nbspFix (s : Name) : Name :=
  s.map (fun c => if c = nbspC then ' ' else c)

/-- Decimal rendering of a natural number, Python `str(n)`. -/
def natStr (n : Nat) : Name := Nat.toDigits 10 n

/-- Python `f"{n:02}"`: zero-pad to two digits. -/
def pad2 (n : Nat) : Name := if n < 10 then '0' :: natStr n else natStr n

/-! ### String constants used by the source -/

def orcidS : Name := "ORCID".data
def nameS : Name := "name".data
def assertedS : Name := "asserted".data
def janeliaS : Name := "Janelia".data
def firstS : Name := "first".data
def flylightS : Name := "flylight".data
def disS : Name := "dis".data
def listS : Name := "list".data
def textS : Name := "text".data
def unknownS : Name := "unknown".data
def commaSpaceS : Name := ", ".data
def amperS : Name := " & ".data
def dotSpaceS : Name := ". ".data
def semiSpaceS : Name := "; ".data
def colonSpaceS : Name := ": ".data
def spaceS : Name := " ".data
def preprintS : Name := "preprint".data
def eLifeS : Name := "eLife".data
def elifeSubS : Name := "elife".data
def osfS : Name := "osf.io".data
def peerjSubS : Name := "peerj.preprints".data
def peerjS : Name := "PeerJ".data
def protocolsS : Name := "protocols.io".data

/-! ### Data model -/

/-- An affiliation entry of a bibliographic author: either a bare string or a
structured object carrying an optional `name` key (the only key the code
reads). -/
inductive AffE where
  | strE (s : Name)
  | objE (nameKey : Option Name)
  deriving DecidableEq, Repr

/-- A DataCite `nameIdentifiers` element. -/
structure NameId where
  nameIdentifier : Option Name := none
  nameIdentifierScheme : Option Name := none
  deriving DecidableEq, Repr

/-- An author entry of a bibliographic record (fields of both schema
variants). -/
structure Auth where
  ORCID : Option Name := none
  nameIdentifiers : Option (List NameId) := none
  given : Option Name := none
  family : Option Name := none
  givenName : Option Name := none
  familyName : Option Name := none
  name : Option Name := none
  sequence : Option Name := none
  affiliation : Option (List AffE) := none
  deriving DecidableEq, Repr

/-- A row of the orcid (identity-registry) collection.  `alumni` models the
presence of the `alumni` key. -/
structure IdRow where
  orcid : Option Name := none
  given : List Name := []
  family : List Name := []
  employeeId : Option Name := none
  alumni : Bool := false
  group : Option Name := none
  group_code : Option Name := none
  affiliations : Option (List Name) := none
  userIdO365 : Option Name := none
  workerType : Option Name := none
  deriving DecidableEq, Repr

/-- The identity registry: rows in natural (insertion) order. -/
abbrev Registry := List IdRow

/-- A Crossref date section, i.e. the value of `published`-like keys; its
`date_parts` field models the `date-parts` key. -/
structure DateSec where
  date_parts : Option (List (List Nat)) := none
  deriving DecidableEq, Repr

/-- A Crossref `institution` entry (only the `name` key is read). -/
structure IEnt where
  nameKey : Option Name := none
  deriving DecidableEq, Repr

/-- The `institution` field: either a list of entries or a single entry. -/
inductive Inst where
  | lst (l : List IEnt)
  | one (e : IEnt)
  deriving DecidableEq, Repr

/-- A bibliographic record with the fields the embedded functions read.
`DOI` present means a Crossref (Variant A) record; absent means DataCite
(Variant B). -/
structure Rec where
  DOI : Option Name := none
  author : Option (List Auth) := none
  creators : Option (List Auth) := none
  editor : Option (List Auth) := none
  name : Option Name := none
  published : Option DateSec := none
  published_print : Option DateSec := none
  published_online : Option DateSec := none
  posted : Option DateSec := none
  created : Option DateSec := none
  registered : Option Name := none
  short_container_title : Option (List Name) := none
  container_title : Option (List Name) := none
  institution : Option Inst := none
  subtype : Option Name := none
  volume : Option Name := none
  page : Option Name := none
  publisher : Option Name := none
  deriving DecidableEq, Repr

/-- The resolved author payload built by `get_author_details` and mutated by
`_add_single_author_jrc` / `_adjust_payload`.  Boolean dict entries that are
only ever set to a value are modelled as `Bool` fields defaulting to `false`;
`matchVal` models the `match` key (`match` is a reserved word in Lean). -/
structure Payload where
  paper_orcid : Option Name := none
  orcid : Option Name := none
  given : Option Name := none
  family : Option Name := none
  name : Option Name := none
  is_first : Bool := false
  is_last : Bool := false
  affiliations : Option (List AffE) := none
  in_database : Bool := false
  janelian : Bool := false
  asserted : Bool := false
  alumni : Bool := false
  validated : Bool := false
  duplicate_name : Bool := false
  matchVal : Option Name := none
  group : Option Name := none
  group_code : Option Name := none
  tags : Option (List Name) := none
  employeeId : Option Name := none
  userIdO365 : Option Name := none
  workerType : Option Name := none
  deriving DecidableEq, Repr

/-- A payload with every key absent (the `payload = {}` of the source). -/
def emptyPayload : Payload := {}

/-! ### Identity-registry queries

Mongo equality filters on the array-valued `given`/`family` fields match
documents whose array contains the given value; `find_one` returns the first
matching document in natural order, `count_documents` the number of
matches. -/

/-- The filter `{"given": g, "family": f}` on an identity row. -/
def namePred (g f : Name) (r : IdRow) : Bool :=
  decide (g ∈ r.given) && decide (f ∈ r.family)

/-- `coll.count_documents({"given": g, "family": f})`. -/
def countName (db : Registry) (g f : Name) : Nat :=
  (db.filter (namePred g f)).length

/-- `coll.find_one({"given": g, "family": f})`. -/
def findName (db : Registry) (g f : Name) : Option IdRow :=
  db.find? (namePred g f)

/-- `coll.find_one({"orcid": o})`. -/
def findOrcid (db : Registry) (o : Name) : Option IdRow :=
  db.find? (fun r => decide (r.orcid = some o))

/-! ### `_adjust_payload` and `_add_single_author_jrc` -/

/-- `_adjust_payload(payload, row)`: copy registry-row attributes onto the
payload; a no-op when `row` is `None`. -/
def adjustPayload (p : Payload) (row : Option IdRow) : Payload :=
  match row with
  | none => p
  | some r =>
    { p with
      orcid := some (r.orcid.getD [])
      in_database := true
      validated := if r.employeeId.isSome then true else p.validated
      janelian := !r.alumni
      alumni := if r.alumni then true else p.alumni
      group := if r.group.isSome then r.group else p.group
      group_code := if r.group_code.isSome then r.group_code else p.group_code
      tags := if r.affiliations.isSome then r.affiliations else p.tags
      employeeId :=
        match r.employeeId with
        | some e => if e ≠ [] then some e else p.employeeId
        | none => p.employeeId
      userIdO365 :=
        match r.userIdO365 with
        | some e => if e ≠ [] then some e else p.userIdO365
        | none => p.userIdO365
      workerType :=
        match r.workerType with
        | some e => if e ≠ [] then some e else p.workerType
        | none => p.workerType }

/-- The default initialization at the top of `_add_single_author_jrc`. -/
def resetFlags (p : Payload) : Payload :=
  { p with
    in_database := false
    janelian := false
    asserted := false
    alumni := false
    validated := false
    matchVal := none }

/-- The ORCID-lookup block of `_add_single_author_jrc`.  Returns the updated
payload together with the state of the local variable `row` (`none` means the
variable is still unbound).  Accessing `payload['given']`/`payload['family']`
with the key absent raises `KeyError`. -/
def orcidBlock (db : Registry) (p : Payload) :
    Except Err (Payload × Option (Option IdRow)) :=
  match p.orcid with
  | none => .ok (p, none)
  | some o =>
    match p.given, p.family with
    | some g, some f =>
      let cnt := countName db g f
      let row := findOrcid db o
      let p :=
        match row with
        | some _ =>
          { p with
            matchVal := some orcidS
            duplicate_name := if cnt > 1 then true else p.duplicate_name }
        | none => p
      .ok (adjustPayload p row, some row)
    | _, _ => .error .keyError

/-- The name-lookup block of `_add_single_author_jrc`, run only when the
payload has a `family` key and no match was recorded yet. -/
def nameBlock (db : Registry) (p : Payload) (rv : Option (Option IdRow)) :
    Except Err (Payload × Option (Option IdRow)) :=
  match p.family, p.matchVal with
  | some f, none =>
    match p.given with
    | none => .error .keyError
    | some g =>
      let cnt := countName db g f
      let row := findName db g f
      let p :=
        match row with
        | some _ =>
          { p with
            matchVal := some nameS
            duplicate_name := if cnt > 1 then true else p.duplicate_name }
        | none => p
      .ok (adjustPayload p row, some row)
  | _, _ => .ok (p, rv)

/-- Python `'Janelia' in aff` for one affiliation entry: substring search on a
string, key search on a dict (whose only key is `name`). -/
def janeliaIn : AffE → Bool
  | .strE s => hasSub janeliaS s
  | .objE _ => false

/-- The asserted-affiliation block of `_add_single_author_jrc`: the body runs
once for the first affiliation entry containing the organization name and
then breaks; its `_adjust_payload(payload, row)` call reads the local `row`
variable, raising `NameError` when neither lookup block ran. -/
def affBlock (p : Payload) (rv : Option (Option IdRow)) : Except Err Payload :=
  match p.affiliations with
  | some l =>
    if l.any janeliaIn then
      let p := { p with janelian := true, asserted := true }
      let p := if p.matchVal ≠ some orcidS then { p with matchVal := some assertedS } else p
      match rv with
      | none => .error .nameError
      | some row => .ok (adjustPayload p row)
    else .ok p
  | none => .ok p

/-- `_add_single_author_jrc(payload, coll)`: the identity resolver. -/
def addSingleAuthorJrc (p0 : Payload) (db : Registry) : Except Err Payload :=
  match orcidBlock db (resetFlags p0) with
  | .error e => .error e
  | .ok (p1, rv1) =>
    match nameBlock db p1 rv1 with
    | .error e => .error e
    | .ok (p2, rv2) => affBlock p2 rv2

/-- Does the payload's own affiliation list assert the organization name?
(The loop guard of the asserted-affiliation block.) -/
def hasJaneliaAff (p : Payload) : Bool :=
  match p.affiliations with
  | some l => l.any janeliaIn
  | none => false

/-- Did the unique-identifier lookup of the resolver succeed? -/
def orcidFound (p : Payload) (db : Registry) : Bool :=
  match p.orcid with
  | some o => (findOrcid db o).isSome
  | none => false

/-! ### `get_publishing_date` -/

/-- Format a `[year, month, day]` array as `YYYY-MM-DD` (the join at line
653 of the source). -/
def fmtDate (arr : List Nat) : Name :=
  joinSep ( "-".data) [natStr (arr.getD 0 0), pad2 (arr.getD 1 0), pad2 (arr.getD 2 0)]

/-- The date sections of a Variant A record in the fixed scan order. -/
def sections (rec : Rec) : List (Option DateSec) :=
  [rec.published, rec.published_print, rec.published_online, rec.posted, rec.created]

/-- The Crossref scan loop of `get_publishing_date`: skip absent sections and
sections without `date-parts`; indexing `date-parts[0]` on an empty array
raises `IndexError`; a first row that is not 3 elements long is skipped. -/
def scanDate : List (Option DateSec) → Except Err Name
  | [] => .ok unknownS
  | none :: rest => scanDate rest
  | some ds :: rest =>
    match ds.date_parts with
    | none => scanDate rest
    | some dp =>
      match dp.head? with
      | none => .error .indexError
      | some arr => if arr.length = 3 then .ok (fmtDate arr) else scanDate rest

/-- `get_publishing_date(rec)`. -/
def getPublishingDate (rec : Rec) : Except Err Name :=
  if rec.DOI.isSome then
    scanDate (sections rec)
  else
    match rec.registered with
    | some s => .ok ((splitChar 'T' s).headD [])
    | none => .ok unknownS

/-- Does this section hold a complete 3-part date array?  (The spec-side
qualification test.) -/
def pickDate : Option DateSec → Option (List Nat)
  | some ds =>
    match ds.date_parts with
    | some (arr :: _) => if arr.length = 3 then some arr else none
    | _ => none
  | none => none

/-- Modelled from the spec: scan the sections in the fixed priority order and
take the first one containing a complete 3-part date array. -/
def specScan : List (Option DateSec) → Name
  | [] => unknownS
  | o :: rest =>
    match pickDate o with
    | some arr => fmtDate arr
    | none => specScan rest

/-- Modelled from the spec: for a Variant A record, the first qualifying
section's date formatted `YYYY-MM-DD` with zero-padded month/day, else
`"unknown"`. -/
def specPublishingDate (rec : Rec) : Name :=
  specScan (sections rec)

/-! ### `get_journal` -/

/-- The Crossref venue fallback chain of `get_journal` (lines 500-518):
`some (some j)` is a venue, `some none` models the `return None` branch. -/
def journalVenue (rec : Rec) (doi : Name) : Except Err (Option Name) :=
  match rec.short_container_title with
  | some (v :: _) => .ok (some v)
  | _ =>
    match rec.container_title with
    | some (v :: _) => .ok (some v)
    | _ =>
      match rec.institution with
      | some (.lst l) =>
        match l.head? with
        | none => .error .indexError
        | some e =>
          match e.nameKey with
          | none => .error .keyError
          | some nm => .ok (some nm)
      | some (.one e) =>
        match e.nameKey with
        | none => .error .keyError
        | some nm => .ok (some nm)
      | none =>
        if hasSub elifeSubS doi && rec.subtype = some preprintS then .ok (some eLifeS)
        else if hasSub osfS doi then .ok (some osfS)
        else if hasSub peerjSubS doi then .ok (some peerjS)
        else if hasSub protocolsS doi then .ok (some protocolsS)
        else .ok none

/-- `get_journal(rec, full)`. -/
def getJournal (rec : Rec) (full : Bool) : Except Err (Option Name) :=
  match rec.DOI with
  | some doi =>
    match journalVenue rec doi with
    | .error e => .error e
    | .ok none => .ok none
    | .ok (some j0) =>
      match getPublishingDate rec with
      | .error e => .error e
      | .ok year =>
        if year = unknownS then .ok none
        else
          let j := j0 ++ dotSpaceS ++ (splitChar '-' year).headD []
          let j :=
            if full then
              let j :=
                match rec.volume with
                | some v => j ++ semiSpaceS ++ v
                | none => j
              match rec.page with
              | some pg => j ++ colonSpaceS ++ pg
              | none => j ++ colonSpaceS ++ lastSegment doi
            else j
          .ok (some j)
  | none =>
    match getPublishingDate rec with
    | .error e => .error e
    | .ok year =>
      if year = unknownS then .ok none
      else
        match rec.publisher with
        | some pb =>
          if pb ≠ [] then .ok (some (pb ++ dotSpaceS ++ (splitChar '-' year).headD []))
          else .ok none
        | none => .ok none

/-! ### `get_author_list` -/

/-- The single-quote character, used by the link markup. -/
def quoteC : Char := Char.ofNat 39

/-- The `ORCID_LOGO` module constant. -/
def ORCID_LOGO : Name :=
  "https://dis.int.janelia.org/static/images/ORCID-iD_icon_16x16.png".data

/-- The link-with-icon markup wrapped around a display name when ORCID links
are requested (lines 389-391 of the source). -/
def orcidWrap (oc full : Name) : Name :=
  "<a href=".data ++ quoteC :: oc ++ quoteC :: " target=".data ++
    quoteC :: "_blank".data ++ quoteC :: ">".data ++ full ++
    "<img alt=".data ++ quoteC :: "ORCID logo".data ++ quoteC :: " src=".data ++
    quoteC :: ORCID_LOGO ++ quoteC :: " width=".data ++ quoteC :: "16".data ++
    quoteC :: " height=".data ++ quoteC :: "16".data ++ quoteC :: " /></a>".data

/-- The loop body of `get_author_list`: render one author as a display
string; `none` models the `continue` (author skipped); reading a missing
`family` key while building initials raises `KeyError`. -/
def renderOne (datacite : Bool) (orcidFlag : Bool) (style : Name)
    (pm : Option (List Name)) (auth : Auth) : Except Err (Option Name) :=
  let gKey := if datacite then auth.givenName else auth.given
  let fKey := if datacite then auth.familyName else auth.family
  let punc : Name := if style = flylightS then ['.'] else []
  let full0 : Name :=
    match pm, gKey, fKey with
    | some m, some gvv, some fvv =>
      let fullname := gvv ++ ' ' :: fvv
      match m.find? (fun x => decide (x = fullname)) with
      | some _ => fullname
      | none => []
    | _, _, _ => []
  let body : Except Err (Option Name) :=
    if full0 ≠ [] then .ok (some full0)
    else
      match gKey with
      | some gvv =>
        let first := (wordsWS gvv).map (fun w => w.take 1 ++ punc)
        match fKey with
        | none => .error .keyError
        | some fvv =>
          if style = flylightS then .ok (some (fvv ++ commaSpaceS ++ joinSep spaceS first))
          else .ok (some (fvv ++ commaSpaceS ++ joinAll first))
      | none =>
        match fKey with
        | some fvv => .ok (some fvv)
        | none =>
          match auth.name with
          | some nm => .ok (some nm)
          | none => .ok none
  match body with
  | .error e => .error e
  | .ok none => .ok none
  | .ok (some full) =>
    match auth.ORCID, orcidFlag with
    | some oc, true => .ok (some (orcidWrap oc full))
    | _, _ => .ok (some full)

/-- Run `renderOne` over the author list, skipping `continue`d authors. -/
def renderAll (datacite : Bool) (orcidFlag : Bool) (style : Name)
    (pm : Option (List Name)) : List Auth → Except Err (List Name)
  | [] => .ok []
  | a :: rest =>
    match renderOne datacite orcidFlag style pm a with
    | .error e => .error e
    | .ok none => renderAll datacite orcidFlag style pm rest
    | .ok (some x) =>
      match renderAll datacite orcidFlag style pm rest with
      | .error e => .error e
      | .ok xs => .ok (x :: xs)

/-- The result of `get_author_list`: Python returns `None`, a string, or a
list of strings. -/
inductive AuthResult where
  | noneR
  | textR (s : Name)
  | listR (l : List Name)
  deriving DecidableEq, Repr

/-- Ensure a rendered entry ends with a period (lines 400-401). -/
def ensureDot (s : Name) : Name :=
  if s.getLast? = some '.' then s else s ++ ['.']

/-- The text-assembly tail of `get_author_list` (lines 397-405): pop the last
entry (`lst.getLast?`, the remainder being `lst.dropLast`), return it alone
for a single author, otherwise add a terminal period when missing and join.
`last[-1]` on an empty entry raises `IndexError`. -/
def textPath (style : Name) (lst : List Name) : Except Err AuthResult :=
  match lst.getLast? with
  | none => .error .indexError
  | some lastE =>
    if lst.dropLast = [] then .ok (.textR lastE)
    else
      match lastE.getLast? with
      | none => .error .indexError
      | some c =>
        if lst.dropLast ≠ [] then
          .ok (.textR (joinSep commaSpaceS lst.dropLast ++
            (if style = flylightS then amperS else commaSpaceS) ++
            (if c = '.' then lastE else lastE ++ ['.'])))
        else .ok .noneR

/-- The body of `get_author_list` once the author list has been selected:
build the display entries and dispatch on the return type. -/
def authListCore (datacite : Bool) (orcidFlag : Bool) (style returntype : Name)
    (pm : Option (List Name)) (author : List Auth) : Except Err AuthResult :=
  match renderAll datacite orcidFlag style pm author with
  | .error e => .error e
  | .ok lst =>
    if lst = [] then .ok .noneR
    else if returntype = listS then .ok (.listR lst)
    else textPath style lst

/-- `get_author_list(rec, orcid, style, returntype, project_map)`. -/
def getAuthorList (rec : Rec) (orcidFlag : Bool) (style returntype : Name)
    (pm : Option (List Name)) : Except Err AuthResult :=
  match (match (if rec.DOI.isNone then rec.creators else rec.author) with
    | some a => some a
    | none => rec.editor) with
  | none => .ok .noneR
  | some author => authListCore rec.DOI.isNone orcidFlag style returntype pm author

/-! ### `_set_paper_orcid` and `get_author_details` -/

/-- `_set_paper_orcid(auth, datacite, payload)`. -/
def setPaperOrcid (datacite : Bool) (auth : Auth) (p : Payload) : Payload :=
  if datacite then
    match auth.nameIdentifiers with
    | some nids =>
      match nids.find? (fun nid =>
          nid.nameIdentifier.isSome && decide (nid.nameIdentifierScheme = some orcidS)) with
      | some nid =>
        let v := lastSegment (nid.nameIdentifier.getD [])
        { p with paper_orcid := some v, orcid := some v }
      | none => p
    | none => p
  else
    match auth.ORCID with
    | some oc => { p with paper_orcid := some (lastSegment oc) }
    | none => p

/-- The affiliation-collection loop of `get_author_details` (lines 315-322):
DataCite entries are appended raw; Crossref entries contribute their truthy
`name` value, and Python's `'name' in aff` on a bare string is a substring
test followed by a `TypeError` on the string indexing. -/
def collectAffs (datacite : Bool) : Option (List AffE) → Except Err (List AffE)
  | none => .ok []
  | some l =>
    let rec go : List AffE → Except Err (List AffE)
      | [] => .ok []
      | aff :: rest =>
        if datacite then
          match go rest with
          | .error e => .error e
          | .ok xs => .ok (aff :: xs)
        else
          match aff with
          | .objE (some nm) =>
            if nm ≠ [] then
              match go rest with
              | .error e => .error e
              | .ok xs => .ok (.strE nm :: xs)
            else go rest
          | .objE none => go rest
          | .strE s0 =>
            if hasSub nameS s0 then .error .typeError else go rest
    go l

/-- The per-author body of the `get_author_details` loop; `seq` is the
1-based position, `total` the author-list length. -/
def processOne (datacite : Bool) (db? : Option Registry) (total seq : Nat)
    (auth : Auth) : Except Err Payload :=
  let p := setPaperOrcid datacite auth emptyPayload
  let gKey := if datacite then auth.givenName else auth.given
  let fKey := if datacite then auth.familyName else auth.family
  let p :=
    match datacite, auth.name with
    | true, some nm =>
      if (gKey = none ∨ gKey = some []) ∧ nm.any (fun c => c = ' ') then
        { p with
          given := some ((splitChar ' ' nm).headD [])
          family := some ((splitChar ' ' nm).getLastD []) }
      else
        let p :=
          match fKey with
          | some fvv => { p with family := some (nbspFix fvv) }
          | none => { p with name := some nm }
        match gKey with
        | some gvv => { p with given := some (nbspFix gvv) }
        | none => { p with given := some [] }
    | _, _ =>
      let p :=
        match fKey with
        | some fvv => { p with family := some (nbspFix fvv) }
        | none =>
          match auth.name with
          | some nm => { p with name := some nm }
          | none => p
      match gKey with
      | some gvv => { p with given := some (nbspFix gvv) }
      | none => { p with given := some [] }
  let p := if seq = 1 ∨ auth.sequence = some firstS then { p with is_first := true } else p
  let p := if seq = total then { p with is_last := true } else p
  let p :=
    match auth.ORCID with
    | some oc => { p with orcid := some (lastSegment oc) }
    | none => p
  match collectAffs datacite auth.affiliation with
  | .error e => .error e
  | .ok affs =>
    let p := if affs ≠ [] then { p with affiliations := some affs } else p
    match db? with
    | some db => addSingleAuthorJrc p db
    | none => .ok p

/-- Iterate `processOne` over the author list. -/
def processAuthors (datacite : Bool) (db? : Option Registry) (total : Nat) :
    Nat → List Auth → Except Err (List Payload)
  | _, [] => .ok []
  | seq, a :: rest =>
    match processOne datacite db? total seq a with
    | .error e => .error e
    | .ok p =>
      match processAuthors datacite db? total (seq + 1) rest with
      | .error e => .error e
      | .ok ps => .ok (p :: ps)

/-- `get_author_details(rec, coll)`: the guard at lines 288-290 returns
`None` only when both the variant-selected author field and the top-level
`name` key are absent; otherwise `rec[field]` is read unconditionally and
raises `KeyError` when the author field is missing. -/
def getAuthorDetails (rec : Rec) (db? : Option Registry) :
    Except Err (Option (List Payload)) :=
  let datacite := rec.DOI.isNone
  let fieldVal := if datacite then rec.creators else rec.author
  match fieldVal, rec.name with
  | none, none => .ok none
  | none, some _ => .error .keyError
  | some author, _ =>
    match processAuthors datacite db? author.length 1 author with
    | .error e => .error e
    | .ok lst => if lst = [] then .ok none else .ok (some lst)

/-! ### `_process_middle_initials`

The Python loop iterates over `rec['given']` while appending to it, so
appended variants are themselves visited later.  The embedding keeps the full
current list as `prev ++ rest` (`prev` the already-visited part) and appends
new variants to the end of `rest`. -/

/-- `[A-Za-z]`. -/
def isAlphaC (c : Char) : Bool :=
  (decide ('A' ≤ c) && decide (c ≤ 'Z')) || (decide ('a' ≤ c) && decide (c ≤ 'z'))

/-- `re.search(r"[A-Za-z]\. [A-Za-z]\.$", s)`. -/
def pat1 (s : Name) : Bool :=
  match s.reverse with
  | d1 :: b :: sp :: d2 :: a :: _ =>
    decide (d1 = '.') && isAlphaC b && decide (sp = ' ') &&
      decide (d2 = '.') && isAlphaC a
  | _ => false

/-- `re.search(r"[A-Za-z]\.[A-Za-z]\.$", s)`. -/
def pat2 (s : Name) : Bool :=
  match s.reverse with
  | d1 :: b :: d2 :: a :: _ =>
    decide (d1 = '.') && isAlphaC b && decide (d2 = '.') && isAlphaC a
  | _ => false

/-- `re.search(r" [A-Za-z]\.$", s)`. -/
def pat3 (s : Name) : Bool :=
  match s.reverse with
  | d1 :: a :: sp :: _ => decide (d1 = '.') && isAlphaC a && decide (sp = ' ')
  | _ => false

/-- Python `s.replace('.', ' ')`. -/
def replaceDots (s : Name) : Name :=
  s.map (fun c => if c = '.' then ' ' else c)

/-- Python `s.rstrip('.')`. -/
def rstripDots (s : Name) : Name :=
  (s.reverse.dropWhile (fun c => decide (c = '.'))).reverse

/-- Does processing this element append a new variant candidate?  (Used only
as a termination measure.) -/
def derivable (s : Name) : Bool := !pat1 s && (pat2 s || pat3 s)

lemma head?_dropWhile_false {α : Type} (p : α → Bool) (l : List α) :
    ∀ x, (l.dropWhile p).head? = some x → p x = false := by
  induction l with
  | nil => intro x hx; simp [List.dropWhile] at hx
  | cons a t ih =>
    intro x hx
    rw [List.dropWhile_cons] at hx
    by_cases hp : p a = true
    · exact ih x (by simpa [hp] using hx)
    · rw [if_neg hp] at hx
      have hax : a = x := by simpa using hx
      subst hax
      simpa using hp

lemma pat2_false_of_headne (s : Name)
    (h : ∀ x, s.reverse.head? = some x → x ≠ '.') : pat2 s = false := by
  unfold pat2
  cases hr : s.reverse with
  | nil => rfl
  | cons c rest =>
    have hc : c ≠ '.' := h c (by rw [hr]; rfl)
    cases rest with
    | nil => rfl
    | cons b r2 =>
      cases r2 with
      | nil => rfl
      | cons d r3 =>
        cases r3 with
        | nil => rfl
        | cons a r4 => simp [hc]

lemma pat3_false_of_headne (s : Name)
    (h : ∀ x, s.reverse.head? = some x → x ≠ '.') : pat3 s = false := by
  unfold pat3
  cases hr : s.reverse with
  | nil => rfl
  | cons c rest =>
    have hc : c ≠ '.' := h c (by rw [hr]; rfl)
    cases rest with
    | nil => rfl
    | cons b r2 =>
      cases r2 with
      | nil => rfl
      | cons d r3 => simp [hc]

lemma replaceDots_headne (s : Name) :
    ∀ x, (replaceDots s).reverse.head? = some x → x ≠ '.' := by
  intro x hx
  rw [replaceDots, ← List.map_reverse, List.head?_map] at hx
  cases hh : s.reverse.head? with
  | none => rw [hh] at hx; simp at hx
  | some c =>
    rw [hh] at hx
    have hcx : (if c = '.' then ' ' else c) = x := by simpa using hx
    subst hcx
    by_cases hc : c = '.' <;> simp [hc]

lemma rstripDots_headne (s : Name) :
    ∀ x, (rstripDots s).reverse.head? = some x → x ≠ '.' := by
  intro x hx
  rw [rstripDots, List.reverse_reverse] at hx
  have := head?_dropWhile_false (fun c => decide (c = '.')) s.reverse x hx
  simpa using this

lemma derivable_replaceDots (s : Name) : derivable (replaceDots s) = false := by
  rw [derivable, pat2_false_of_headne _ (replaceDots_headne s),
    pat3_false_of_headne _ (replaceDots_headne s)]
  simp

lemma derivable_rstripDots (s : Name) : derivable (rstripDots s) = false := by
  rw [derivable, pat2_false_of_headne _ (rstripDots_headne s),
    pat3_false_of_headne _ (rstripDots_headne s)]
  simp

lemma measure_drop (h : Name) (t : List Name) :
    t.length + (t.filter derivable).length
      < (h :: t).length + ((h :: t).filter derivable).length := by
  simp only [List.length_cons, List.filter_cons]
  split
  · simp only [List.length_cons]
    omega
  · omega

lemma measure_append (hh : Name) (t : List Name) (nw : Name)
    (hder : derivable hh = true) (hnw : derivable nw = false) :
    (t ++ [nw]).length + ((t ++ [nw]).filter derivable).length
      < (hh :: t).length + ((hh :: t).filter derivable).length := by
  simp only [List.length_append, List.length_cons, List.filter_append,
    List.filter_cons, hder, hnw]
  simp only [if_true, Bool.false_eq_true, if_false, List.filter_nil,
    List.append_nil, List.length_cons, List.length_nil]
  omega

/-- The loop of `_process_middle_initials`: `prev ++ rest` is the current
value of `rec['given']`, the head of `rest` the element under the loop
variable; derived variants are appended at the end when not already present
anywhere in the current list. -/
def expandGo (prev rest : List Name) : List Name :=
  match rest with
  | [] => prev
  | h :: t =>
    if _h1 : pat1 h then expandGo (prev ++ [h]) t
    else if _h2 : pat2 h then
      if _hm : replaceDots h ∈ prev ++ h :: t then expandGo (prev ++ [h]) t
      else expandGo (prev ++ [h]) (t ++ [replaceDots h])
    else if _h3 : pat3 h then
      if _hm : rstripDots h ∈ prev ++ h :: t then expandGo (prev ++ [h]) t
      else expandGo (prev ++ [h]) (t ++ [rstripDots h])
    else expandGo (prev ++ [h]) t
termination_by rest.length + (rest.filter derivable).length
decreasing_by
  · exact measure_drop _ _
  · exact measure_drop _ _
  · refine measure_append _ _ _ ?_ (derivable_replaceDots _)
    rw [derivable, _h2]
    simp [_h1]
  · exact measure_drop _ _
  · refine measure_append _ _ _ ?_ (derivable_rstripDots _)
    rw [derivable, _h3]
    simp [_h1]
  · exact measure_drop _ _

/-- `_process_middle_initials(rec)` acting on the `given` list. -/
def processMiddleInitials (l : List Name) : List Name := expandGo [] l

/-- Saturation of one element with respect to a list: every variant the loop
body would derive from it is already present. -/
def SatP (L : List Name) (s : Name) : Prop :=
  pat1 s = false →
    (pat2 s = true → replaceDots s ∈ L) ∧
    (pat2 s = false → pat3 s = true → rstripDots s ∈ L)

/-- Does a string contain the separator `", "`?  (Python `", " in s`.) -/
def hasCS : Name → Bool
  | a :: b :: rest => (decide (a = ',') && decide (b = ' ')) || hasCS (b :: rest)
  | _ => false

/-- Python `s.split(", ")`: greedy left-to-right split on the two-character
separator. -/
def csplit : Name → List Name
  | [] => [[]]
  | [c] => [[c]]
  | a :: b :: rest =>
    if a = ',' ∧ b = ' ' then [] :: csplit rest
    else
      match csplit (b :: rest) with
      | [] => [[a]]
      | p :: ps => (a :: p) :: ps

/-! ### Concrete records and registry states used by witnesses and
counterexamples -/

/-- The record of the `get_journal` scenario. -/
def recC5 : Rec :=
  { DOI := some "10.1002/cne.22542".data
    container_title := some [ "J of Comparative Neurology".data]
    published := some { date_parts := some [[2011, 9, 1]] }
    volume := some "519".data
    page := some "661-689".data }

/-- A Variant A record whose `published` section has an empty `date-parts`
array. -/
def recEmptyDate : Rec :=
  { DOI := some "10.1234/empty".data
    published := some { date_parts := some [] } }

def authSmith : Auth := { given := some "Ann".data, family := some "Smith".data }

def authJones : Auth := { given := some "Bob".data, family := some "Jones".data }

/-- A Crossref record with two given-plus-family authors. -/
def recTwoAuth : Rec := { DOI := some "10.1234/two".data, author := some [authSmith, authJones] }

def authAlpha : Auth := { family := some "Alpha".data }

def authBeta : Auth := { family := some "Beta".data }

def authGamma : Auth := { family := some "Gamma".data }

/-- A Crossref record with three family-only authors. -/
def recThreeAuth : Rec :=
  { DOI := some "10.1234/three".data, author := some [authAlpha, authBeta, authGamma] }

def oX : Name := "0000-0003-0369-9788".data

/-- An identity row carrying the ORCID `oX`. -/
def rowA : IdRow :=
  { orcid := some oX
    given := [ "Gerald".data]
    family := [ "Meissner".data]
    employeeId := some "E123".data
    group := some "GroupA".data }

/-- A different identity row matching the same (given, family) pair, listed
first so that a name lookup would return it. -/
def rowB : IdRow := { given := [ "Gerald".data], family := [ "Meissner".data] }

def dbTwoRows : Registry := [rowB, rowA]

def pOrcidName : Payload :=
  { orcid := some oX, given := some "Gerald".data, family := some "Meissner".data }

/-- An affiliation entry literally containing the organization name. -/
def affJ : AffE := .strE "Janelia Research Campus".data

/-- An identity row with the alumni marker. -/
def rowAl : IdRow := { given := [ "Jane".data], family := [ "Doe".data], alumni := true }

def dbAlumni : Registry := [rowAl]

/-- A payload whose name matches the alumni row and whose own affiliation
asserts the organization name. -/
def pAffAlumni : Payload :=
  { given := some "Jane".data, family := some "Doe".data, affiliations := some [affJ] }

/-- The same author payload without the asserted affiliation. -/
def pNameOnly : Payload := { given := some "Jane".data, family := some "Doe".data }

def rowD1 : IdRow := { given := [ "Jo".data], family := [ "Lee".data] }

def rowD2 : IdRow := { given := [ "Jo".data, "Joanna".data], family := [ "Lee".data] }

def dbDup : Registry := [rowD1, rowD2]

def pDup : Payload := { given := some "Jo".data, family := some "Lee".data }

/-- A Variant A record with a top-level `name` but no `author` field. -/
def recNameOnly : Rec := { DOI := some "10.1234/nm".data, name := some "Some Consortium".data }

/-- A Variant A record with neither `author` nor `name`. -/
def recNoAuthor : Rec := { DOI := some "10.1234/na".data }

/-- A given-name list exercising both middle-initial expansion rules. -/
def givenDemo : List Name := [ "Jane A.B.".data, "John Q.".data]

/-- A Variant A record with a venue but no date section. -/
def recUnknownDate : Rec :=
  { DOI := some "10.1234/unk".data, container_title := some [ "X".data] }

/-- A Variant A record with both a short and a long container title. -/
def recShort : Rec :=
  { DOI := some "10.1234/s".data
    short_container_title := some [ "Sh".data]
    container_title := some [ "Full Name".data]
    published := some { date_parts := some [[2020, 1, 2]] } }

/-- The payload resolved from `pAffAlumni` against `dbAlumni`. -/
def resolvedAffAlumni : Payload :=
  match addSingleAuthorJrc pAffAlumni dbAlumni with
  | .ok q => q
  | .error _ => emptyPayload

/-- The payload resolved from `pDup` against `dbDup`. -/
def resolvedDup : Payload :=
  match addSingleAuthorJrc pDup dbDup with
  | .ok q => q
  | .error _ => emptyPayload

/-- The payload resolved from `pNameOnly` against `dbAlumni`. -/
def resolvedAlumni : Payload :=
  match addSingleAuthorJrc pNameOnly dbAlumni with
  | .ok q => q
  | .error _ => emptyPayload

/-! ## Claim C10: the author-field guard of `get_author_details` -/

/-- C10: for every record whose variant-selected author field is absent, a
present top-level `name` key makes `get_author_details` raise `KeyError`
(the `name` value is never used as an author-list fallback), and the guard
returns `None` exactly when both are absent. -/
theorem authorDetails_missing_field_keyerror :
    (∀ (rec : Rec) (db? : Option Registry) (n : Name),
      (if rec.DOI.isNone then rec.creators else rec.author) = none →
      rec.name = some n →
      getAuthorDetails rec db? = .error .keyError) ∧
    (∀ (rec : Rec) (db? : Option Registry),
      (if rec.DOI.isNone then rec.creators else rec.author) = none →
      rec.name = none →
      getAuthorDetails rec db? = .ok none) := by
  constructor
  · intro rec db? n hf hn
    simp only [getAuthorDetails]
    rw [hf, hn]
  · intro rec db? hf hn
    simp only [getAuthorDetails]
    rw [hf, hn]

/-- C10 witness: concrete Variant A records with a missing `author` field,
with and without a top-level `name`. -/
theorem authorDetails_missing_field_keyerror_check :
    getAuthorDetails recNameOnly none = .error .keyError ∧
    getAuthorDetails recNoAuthor none = .ok none :=
  ⟨authorDetails_missing_field_keyerror.1 recNameOnly none
      ( "Some Consortium".data) rfl rfl,
    authorDetails_missing_field_keyerror.2 recNoAuthor none rfl rfl⟩

/-! ## Claim C3: `get_publishing_date` on Variant A records -/

/-- C3 counterexample: a `published` section with an empty `date-parts`
array makes `get_publishing_date` raise `IndexError` even though no section
holds a complete 3-part date, refuting the claim that the function never
raises for missing date data. -/
theorem publishingDate_empty_parts_raises :
    getPublishingDate recEmptyDate = .error .indexError ∧
    specPublishingDate recEmptyDate = unknownS := by
  constructor <;> rfl

lemma scanDate_spec (L : List (Option DateSec))
    (hne : ∀ o ∈ L, ∀ ds, o = some ds → ∀ dp, ds.date_parts = some dp → dp ≠ []) :
    scanDate L = .ok (specScan L) := by
  induction L with
  | nil => rfl
  | cons o rest ih =>
    have hrest : ∀ o ∈ rest, ∀ ds, o = some ds → ∀ dp, ds.date_parts = some dp → dp ≠ [] :=
      fun x hx => hne x (List.mem_cons_of_mem _ hx)
    cases o with
    | none =>
      rw [show scanDate (none :: rest) = scanDate rest from rfl]
      rw [show specScan (none :: rest) = specScan rest from rfl]
      exact ih hrest
    | some ds =>
      cases hdp : ds.date_parts with
      | none =>
        simp only [scanDate, specScan, pickDate, hdp]
        exact ih hrest
      | some dp =>
        cases dp with
        | nil =>
          exact absurd rfl (hne (some ds) (List.mem_cons_self _ _) ds rfl [] hdp)
        | cons arr rest2 =>
          simp only [scanDate, specScan, pickDate, hdp, List.head?_cons]
          by_cases hlen : arr.length = 3
          · simp [hlen]
          · simp only [hlen, if_false]
            exact ih hrest

/-- C3 (amended): for every Variant A record each of whose present date
sections has a non-empty `date-parts` array, `get_publishing_date` scans the
sections in the fixed order, returns the first qualifying section's 3-part
date as zero-padded `YYYY-MM-DD`, and returns `"unknown"` (raising nothing)
when no section qualifies; a present section with an empty `date-parts`
array instead raises `IndexError`. -/
theorem publishingDate_scan_spec (rec : Rec) (hA : rec.DOI.isSome = true)
    (hne : ∀ o ∈ sections rec, ∀ ds, o = some ds → ∀ dp, ds.date_parts = some dp → dp ≠ []) :
    getPublishingDate rec = .ok (specPublishingDate rec) := by
  unfold getPublishingDate specPublishingDate
  rw [if_pos hA]
  exact scanDate_spec _ hne

/-- C3 witness: the scan applied to the scenario record yields its
`published` date. -/
theorem publishingDate_scan_spec_check :
    getPublishingDate recC5 = .ok (specPublishingDate recC5) ∧
    specPublishingDate recC5 = "2011-09-01".data := by
  constructor
  · apply publishingDate_scan_spec recC5 rfl
    intro o ho ds hds dp hdp
    subst hds
    simp [sections, recC5] at ho
    subst ho
    simp at hdp
    subst hdp
    decide
  · decide

/-! ## Claim C5: `get_journal` -/

/-- C5: the concrete scenario record yields exactly
`"J of Comparative Neurology. 2011; 519: 661-689"`; more generally, for
Variant A a returned journal is `None` whenever the publishing date is
`"unknown"`, and a non-empty `short-container-title` takes priority as the
venue prefix of any returned journal string. -/
theorem journal_scenario_and_chain :
    getJournal recC5 true =
      .ok (some ( "J of Comparative Neurology. 2011; 519: 661-689".data)) ∧
    (∀ (rec : Rec) (full : Bool) (j : Option Name),
      rec.DOI.isSome = true →
      getJournal rec full = .ok j →
      getPublishingDate rec = .ok unknownS →
      j = none) ∧
    (∀ (rec : Rec) (full : Bool) (v : Name) (vr : List Name) (j : Name),
      rec.DOI.isSome = true →
      rec.short_container_title = some (v :: vr) →
      getJournal rec full = .ok (some j) →
      ∃ t, j = v ++ t) := by
  refine ⟨by rfl, ?_, ?_⟩
  · intro rec full j hA hj hdate
    cases hD : rec.DOI with
    | none => rw [hD] at hA; exact absurd hA (by simp)
    | some doi =>
      simp only [getJournal, hD] at hj
      cases hv : journalVenue rec doi with
      | error e => rw [hv] at hj; exact absurd hj (by simp)
      | ok venue =>
        cases venue with
        | none =>
          rw [hv] at hj
          simpa using hj.symm
        | some j0 =>
          rw [hv, hdate] at hj
          simp only [if_pos rfl] at hj
          simpa using hj.symm
  · intro rec full v vr j hA hshort hj
    cases hD : rec.DOI with
    | none => rw [hD] at hA; exact absurd hA (by simp)
    | some doi =>
      simp only [getJournal, journalVenue, hD, hshort] at hj
      cases hdate : getPublishingDate rec with
      | error e =>
        simp only [hdate] at hj
        exact absurd hj (by simp)
      | ok year =>
        simp only [hdate] at hj
        by_cases hy : year = unknownS
        · rw [if_pos hy] at hj
          exact absurd hj (by simp)
        · rw [if_neg hy] at hj
          simp only [Except.ok.injEq, Option.some.injEq] at hj
          cases full with
          | false =>
            simp only [Bool.false_eq_true, if_false] at hj
            subst hj
            simp only [List.append_assoc]
            exact ⟨_, rfl⟩
          | true =>
            rw [if_pos rfl] at hj
            cases hpg : rec.page <;> cases hvol : rec.volume <;>
              simp only [hpg, hvol] at hj <;> subst hj <;>
              simp only [List.append_assoc] <;> exact ⟨_, rfl⟩

/-- C5 witness: the chain conjuncts instantiated at concrete records: a
record with both short and long container titles whose journal string starts
with the short title, and a record with a venue but no date for which the
journal is `None`. -/
theorem journal_scenario_and_chain_check :
    (∃ t, ( "Sh. 2020: s".data) = "Sh".data ++ t) ∧ (none : Option Name) = none :=
  ⟨journal_scenario_and_chain.2.2 recShort true ( "Sh".data) [] ( "Sh. 2020: s".data)
      rfl rfl (by rfl),
    journal_scenario_and_chain.2.1 recUnknownDate true none rfl (by rfl) (by rfl)⟩

/-! ## Claims C1, C2, C4, C9: the identity resolver -/

lemma assertedS_ne_orcidS : assertedS ≠ orcidS := by decide

lemma nameS_ne_orcidS : nameS ≠ orcidS := by decide

lemma findName_isSome_of_two (db : Registry) (g f : Name)
    (h : 2 ≤ countName db g f) : ∃ r, findName db g f = some r := by
  unfold countName at h
  unfold findName
  cases hfind : db.find? (namePred g f) with
  | some r => exact ⟨r, rfl⟩
  | none =>
    exfalso
    rw [List.find?_eq_none] at hfind
    have hnil : db.filter (namePred g f) = [] := by
      rw [List.filter_eq_nil_iff]
      exact hfind
    rw [hnil] at h
    simp at h

/-- C1: for every payload carrying an ORCID that matches a registry row
`r1`, the resolver sets `match` to `'ORCID'` and copies
`in_database`/`validated`/`janelian`/`group` and the identifier from `r1`,
whatever other rows (in particular a name-matching one) the registry holds:
the name lookup is skipped because a match was already recorded. -/
theorem resolver_orcid_priority (p : Payload) (db : Registry) (o g f : Name) (r1 : IdRow)
    (ho : p.orcid = some o) (hg : p.given = some g) (hf : p.family = some f)
    (hr : findOrcid db o = some r1) :
    (addSingleAuthorJrc p db).map Payload.matchVal = .ok (some orcidS) ∧
    (addSingleAuthorJrc p db).map Payload.in_database = .ok true ∧
    (addSingleAuthorJrc p db).map Payload.validated = .ok r1.employeeId.isSome ∧
    (addSingleAuthorJrc p db).map Payload.janelian = .ok (!r1.alumni) ∧
    (addSingleAuthorJrc p db).map Payload.orcid = .ok (some (r1.orcid.getD [])) ∧
    (addSingleAuthorJrc p db).map Payload.group =
      .ok (if r1.group.isSome then r1.group else p.group) := by
  cases haffs : p.affiliations with
  | none =>
    simp [addSingleAuthorJrc, orcidBlock, nameBlock, affBlock, resetFlags,
      adjustPayload, Except.map, ho, hg, hf, hr, haffs]
  | some l =>
    by_cases hj : l.any janeliaIn
    · simp [addSingleAuthorJrc, orcidBlock, nameBlock, affBlock, resetFlags,
        adjustPayload, Except.map, ho, hg, hf, hr, haffs, hj]
      intro hgr
      rw [if_pos hgr]
    · simp [addSingleAuthorJrc, orcidBlock, nameBlock, affBlock, resetFlags,
        adjustPayload, Except.map, ho, hg, hf, hr, haffs, hj]

/-- C1 witness: a registry whose first row matches the payload's name while
a later row carries its ORCID; the resolver reports the ORCID row. -/
theorem resolver_orcid_priority_check :
    (addSingleAuthorJrc pOrcidName dbTwoRows).map Payload.matchVal = .ok (some orcidS) ∧
    (addSingleAuthorJrc pOrcidName dbTwoRows).map Payload.in_database = .ok true ∧
    (addSingleAuthorJrc pOrcidName dbTwoRows).map Payload.validated = .ok rowA.employeeId.isSome ∧
    (addSingleAuthorJrc pOrcidName dbTwoRows).map Payload.janelian = .ok (!rowA.alumni) ∧
    (addSingleAuthorJrc pOrcidName dbTwoRows).map Payload.orcid = .ok (some (rowA.orcid.getD [])) ∧
    (addSingleAuthorJrc pOrcidName dbTwoRows).map Payload.group =
      .ok (if rowA.group.isSome then rowA.group else pOrcidName.group) :=
  resolver_orcid_priority pOrcidName dbTwoRows oX ( "Gerald".data) ( "Meissner".data) rowA
    rfl rfl rfl rfl

/-- C2 counterexample: an author whose name matches an alumni registry row
and whose own affiliation contains the organization name ends with
`janelian = false`: the asserted-affiliation block first sets
`janelian = true` but its re-run of the adjust step overwrites it with the
row's non-alumni status, so `janelian` is not set unconditionally. -/
theorem resolver_asserted_janelian_cex :
    hasJaneliaAff pAffAlumni = true ∧
    (addSingleAuthorJrc pAffAlumni dbAlumni).map Payload.asserted = .ok true ∧
    (addSingleAuthorJrc pAffAlumni dbAlumni).map Payload.janelian = .ok false :=
  ⟨rfl, rfl, rfl⟩

/-- C2 (amended): for every resolved payload with an affiliation entry
literally containing the organization name, `asserted` is set
unconditionally; `match` is `'ORCID'` exactly when the unique-identifier
lookup succeeded and is overwritten to `'asserted'` otherwise (so a name
match is overwritten but a unique-id match never is); and `janelian` ends
`true` unless the adjust re-run found an alumni row, in which case the
payload records `in_database = true` and `alumni = true` instead. -/
theorem resolver_asserted_priority (p : Payload) (db : Registry) (q : Payload)
    (hok : addSingleAuthorJrc p db = .ok q) (haff : hasJaneliaAff p = true) :
    q.asserted = true ∧
    (q.matchVal = some orcidS ↔ orcidFound p db = true) ∧
    (orcidFound p db = false → q.matchVal = some assertedS) ∧
    (q.janelian = true ∨ (q.in_database = true ∧ q.alumni = true)) := by
  cases haffs : p.affiliations with
  | none => simp [hasJaneliaAff, haffs] at haff
  | some l =>
    have hany : l.any janeliaIn = true := by
      simpa [hasJaneliaAff, haffs] using haff
    cases hor : p.orcid with
    | none =>
      have hOF : orcidFound p db = false := by simp [orcidFound, hor]
      cases hfam : p.family with
      | none =>
        simp [addSingleAuthorJrc, orcidBlock, nameBlock, affBlock, resetFlags,
          hor, hfam, haffs, hany] at hok
      | some f =>
        cases hgiv : p.given with
        | none =>
          simp [addSingleAuthorJrc, orcidBlock, nameBlock, resetFlags,
            hor, hfam, hgiv] at hok
        | some g =>
          cases hfn : findName db g f with
          | none =>
            simp [addSingleAuthorJrc, orcidBlock, nameBlock, affBlock, resetFlags,
              adjustPayload, hor, hfam, hgiv, hfn, haffs, hany] at hok
            subst hok
            simp [hOF, assertedS_ne_orcidS]
          | some r =>
            simp [addSingleAuthorJrc, orcidBlock, nameBlock, affBlock, resetFlags,
              adjustPayload, hor, hfam, hgiv, hfn, haffs, hany,
              nameS_ne_orcidS] at hok
            subst hok
            cases hal : r.alumni <;> simp [hOF, hal, assertedS_ne_orcidS]
    | some o =>
      cases hgiv : p.given with
      | none =>
        simp [addSingleAuthorJrc, orcidBlock, resetFlags, hor, hgiv] at hok
      | some g =>
        cases hfam : p.family with
        | none =>
          simp [addSingleAuthorJrc, orcidBlock, resetFlags, hor, hgiv, hfam] at hok
        | some f =>
          cases hro : findOrcid db o with
          | some r =>
            have hOF : orcidFound p db = true := by simp [orcidFound, hor, hro]
            simp [addSingleAuthorJrc, orcidBlock, nameBlock, affBlock, resetFlags,
              adjustPayload, hor, hgiv, hfam, hro, haffs, hany] at hok
            subst hok
            cases hal : r.alumni <;> simp [hOF, hal]
          | none =>
            have hOF : orcidFound p db = false := by simp [orcidFound, hor, hro]
            cases hfn : findName db g f with
            | none =>
              simp [addSingleAuthorJrc, orcidBlock, nameBlock, affBlock, resetFlags,
                adjustPayload, hor, hgiv, hfam, hro, hfn, haffs, hany] at hok
              subst hok
              simp [hOF, assertedS_ne_orcidS]
            | some r =>
              simp [addSingleAuthorJrc, orcidBlock, nameBlock, affBlock, resetFlags,
                adjustPayload, hor, hgiv, hfam, hro, hfn, haffs, hany,
                nameS_ne_orcidS] at hok
              subst hok
              cases hal : r.alumni <;> simp [hOF, hal, assertedS_ne_orcidS]

/-- C2 witness: the amended invariant at the alumni-row scenario. -/
theorem resolver_asserted_priority_check :
    resolvedAffAlumni.asserted = true ∧
    (resolvedAffAlumni.matchVal = some orcidS ↔ orcidFound pAffAlumni dbAlumni = true) ∧
    (orcidFound pAffAlumni dbAlumni = false → resolvedAffAlumni.matchVal = some assertedS) ∧
    (resolvedAffAlumni.janelian = true ∨
      (resolvedAffAlumni.in_database = true ∧ resolvedAffAlumni.alumni = true)) :=
  resolver_asserted_priority pAffAlumni dbAlumni resolvedAffAlumni rfl rfl

/-- C4: when at least two registry rows match the payload's (given, family)
pair, resolution (which always records a match in that situation, via the
identifier block when its lookup succeeds and via the name block otherwise)
sets `duplicate_name = true`. -/
theorem resolver_duplicate_name (p : Payload) (db : Registry) (g f : Name)
    (hg : p.given = some g) (hf : p.family = some f)
    (hcnt : 2 ≤ countName db g f) (q : Payload)
    (hok : addSingleAuthorJrc p db = .ok q) :
    q.duplicate_name = true := by
  have hlt : 1 < countName db g f := by omega
  cases haffs : p.affiliations with
  | none =>
    cases hor : p.orcid with
    | none =>
      obtain ⟨r, hr⟩ := findName_isSome_of_two db g f hcnt
      simp [addSingleAuthorJrc, orcidBlock, nameBlock, affBlock, resetFlags,
        adjustPayload, Except.map, hor, hg, hf, hr, haffs, hlt] at hok
      subst hok
      rfl
    | some o =>
      cases hro : findOrcid db o with
      | some r =>
        simp [addSingleAuthorJrc, orcidBlock, nameBlock, affBlock, resetFlags,
          adjustPayload, Except.map, hor, hg, hf, hro, haffs, hlt] at hok
        subst hok
        rfl
      | none =>
        obtain ⟨r, hr⟩ := findName_isSome_of_two db g f hcnt
        simp [addSingleAuthorJrc, orcidBlock, nameBlock, affBlock, resetFlags,
          adjustPayload, Except.map, hor, hg, hf, hro, hr, haffs, hlt] at hok
        subst hok
        rfl
  | some l =>
    by_cases hany : l.any janeliaIn = true
    · cases hor : p.orcid with
      | none =>
        obtain ⟨r, hr⟩ := findName_isSome_of_two db g f hcnt
        simp [addSingleAuthorJrc, orcidBlock, nameBlock, affBlock, resetFlags,
          adjustPayload, Except.map, hor, hg, hf, hr, haffs, hany, hlt,
          nameS_ne_orcidS] at hok
        subst hok
        rfl
      | some o =>
        cases hro : findOrcid db o with
        | some r =>
          simp [addSingleAuthorJrc, orcidBlock, nameBlock, affBlock, resetFlags,
            adjustPayload, Except.map, hor, hg, hf, hro, haffs, hany, hlt] at hok
          subst hok
          rfl
        | none =>
          obtain ⟨r, hr⟩ := findName_isSome_of_two db g f hcnt
          simp [addSingleAuthorJrc, orcidBlock, nameBlock, affBlock, resetFlags,
            adjustPayload, Except.map, hor, hg, hf, hro, hr, haffs, hany, hlt,
            nameS_ne_orcidS] at hok
          subst hok
          rfl
    · cases hor : p.orcid with
      | none =>
        obtain ⟨r, hr⟩ := findName_isSome_of_two db g f hcnt
        simp [addSingleAuthorJrc, orcidBlock, nameBlock, affBlock, resetFlags,
          adjustPayload, Except.map, hor, hg, hf, hr, haffs, hany, hlt] at hok
        subst hok
        rfl
      | some o =>
        cases hro : findOrcid db o with
        | some r =>
          simp [addSingleAuthorJrc, orcidBlock, nameBlock, affBlock, resetFlags,
            adjustPayload, Except.map, hor, hg, hf, hro, haffs, hany, hlt] at hok
          subst hok
          rfl
        | none =>
          obtain ⟨r, hr⟩ := findName_isSome_of_two db g f hcnt
          simp [addSingleAuthorJrc, orcidBlock, nameBlock, affBlock, resetFlags,
            adjustPayload, Except.map, hor, hg, hf, hro, hr, haffs, hany, hlt] at hok
          subst hok
          rfl

/-- C4 witness: two registry rows share the pair (Jo, Lee). -/
theorem resolver_duplicate_name_check : resolvedDup.duplicate_name = true :=
  resolver_duplicate_name pDup dbDup ( "Jo".data) ( "Lee".data) rfl rfl (by decide)
    resolvedDup rfl

/-- C9: a name match against a registry row carrying the alumni marker (with
no unique-identifier match) yields `janelian = false`, `alumni = true`,
`in_database = true`: the adjust step sets `janelian` to the negation of the
alumni marker. -/
theorem resolver_alumni_name_match (p : Payload) (db : Registry) (g f : Name) (r : IdRow)
    (ho : p.orcid = none) (hg : p.given = some g) (hf : p.family = some f)
    (hr : findName db g f = some r) (hal : r.alumni = true)
    (q : Payload) (hok : addSingleAuthorJrc p db = .ok q) :
    q.janelian = false ∧ q.alumni = true ∧ q.in_database = true := by
  cases haffs : p.affiliations with
  | none =>
    simp [addSingleAuthorJrc, orcidBlock, nameBlock, affBlock, resetFlags,
      adjustPayload, Except.map, ho, hg, hf, hr, haffs] at hok
    subst hok
    simp [hal]
  | some l =>
    by_cases hany : l.any janeliaIn = true
    · simp [addSingleAuthorJrc, orcidBlock, nameBlock, affBlock, resetFlags,
        adjustPayload, Except.map, ho, hg, hf, hr, haffs, hany,
        nameS_ne_orcidS] at hok
      subst hok
      simp [hal]
    · simp [addSingleAuthorJrc, orcidBlock, nameBlock, affBlock, resetFlags,
        adjustPayload, Except.map, ho, hg, hf, hr, haffs, hany] at hok
      subst hok
      simp [hal]

/-- C9 witness: the alumni scenario at a concrete registry. -/
theorem resolver_alumni_name_match_check :
    resolvedAlumni.janelian = false ∧ resolvedAlumni.alumni = true ∧
    resolvedAlumni.in_database = true :=
  resolver_alumni_name_match pNameOnly dbAlumni ( "Jane".data) ( "Doe".data) rowAl
    rfl rfl rfl rfl rfl resolvedAlumni rfl


/-! ## Claim C6: idempotence of the middle-initial expansion -/

lemma expandGo_nil (prev : List Name) : expandGo prev [] = prev := by
  rw [expandGo]

lemma cons_shift (prev : List Name) (p : Name) (ps : List Name) :
    prev ++ p :: ps = (prev ++ [p]) ++ ps := by simp

lemma shift_new (prev : List Name) (p : Name) (ps : List Name) (nw : Name) :
    (prev ++ [p]) ++ (ps ++ [nw]) = (prev ++ p :: ps) ++ [nw] := by simp

lemma expandGo_cons_pat1 (prev : List Name) (p : Name) (ps : List Name)
    (h1 : pat1 p = true) :
    expandGo prev (p :: ps) = expandGo (prev ++ [p]) ps := by
  rw [expandGo]
  rw [dif_pos h1]

lemma expandGo_cons_pat2_mem (prev : List Name) (p : Name) (ps : List Name)
    (h1 : ¬pat1 p = true) (h2 : pat2 p = true)
    (hm : replaceDots p ∈ prev ++ p :: ps) :
    expandGo prev (p :: ps) = expandGo (prev ++ [p]) ps := by
  rw [expandGo]
  rw [dif_neg h1, dif_pos h2, dif_pos hm]

lemma expandGo_cons_pat2_new (prev : List Name) (p : Name) (ps : List Name)
    (h1 : ¬pat1 p = true) (h2 : pat2 p = true)
    (hm : replaceDots p ∉ prev ++ p :: ps) :
    expandGo prev (p :: ps) = expandGo (prev ++ [p]) (ps ++ [replaceDots p]) := by
  rw [expandGo]
  rw [dif_neg h1, dif_pos h2, dif_neg hm]

lemma expandGo_cons_pat3_mem (prev : List Name) (p : Name) (ps : List Name)
    (h1 : ¬pat1 p = true) (h2 : ¬pat2 p = true) (h3 : pat3 p = true)
    (hm : rstripDots p ∈ prev ++ p :: ps) :
    expandGo prev (p :: ps) = expandGo (prev ++ [p]) ps := by
  rw [expandGo]
  rw [dif_neg h1, dif_neg h2, dif_pos h3, dif_pos hm]

lemma expandGo_cons_pat3_new (prev : List Name) (p : Name) (ps : List Name)
    (h1 : ¬pat1 p = true) (h2 : ¬pat2 p = true) (h3 : pat3 p = true)
    (hm : rstripDots p ∉ prev ++ p :: ps) :
    expandGo prev (p :: ps) = expandGo (prev ++ [p]) (ps ++ [rstripDots p]) := by
  rw [expandGo]
  rw [dif_neg h1, dif_neg h2, dif_pos h3, dif_neg hm]

lemma expandGo_cons_none (prev : List Name) (p : Name) (ps : List Name)
    (h1 : ¬pat1 p = true) (h2 : ¬pat2 p = true) (h3 : ¬pat3 p = true) :
    expandGo prev (p :: ps) = expandGo (prev ++ [p]) ps := by
  rw [expandGo]
  rw [dif_neg h1, dif_neg h2, dif_neg h3]

lemma SatP_append (L L2 : List Name) (s : Name) (h : SatP L s) : SatP (L ++ L2) s := by
  intro h1
  exact ⟨fun h2 => List.mem_append_left _ ((h h1).1 h2),
    fun h2 h3 => List.mem_append_left _ ((h h1).2 h2 h3)⟩

lemma expandGo_sat (prev rest : List Name)
    (hprev : ∀ s ∈ prev, SatP (prev ++ rest) s) :
    ∀ s ∈ expandGo prev rest, SatP (expandGo prev rest) s := by
  induction prev, rest using expandGo.induct with
  | case1 prev =>
    rw [expandGo_nil]
    intro s hs
    simpa using hprev s hs
  | case2 prev p ps h1 ih =>
    rw [expandGo_cons_pat1 _ _ _ h1]
    apply ih
    intro s hs
    rw [← cons_shift]
    rcases List.mem_append.mp hs with hsp | hsp
    · exact hprev s hsp
    · have hsp2 : s = p := by simpa using hsp
      subst hsp2
      intro h0
      rw [h0] at h1
      cases h1
  | case3 prev p ps h1 h2 hm ih =>
    rw [expandGo_cons_pat2_mem _ _ _ h1 h2 hm]
    apply ih
    intro s hs
    rw [← cons_shift]
    rcases List.mem_append.mp hs with hsp | hsp
    · exact hprev s hsp
    · have hsp2 : s = p := by simpa using hsp
      subst hsp2
      intro h0
      exact ⟨fun _ => hm, fun h2f _ => absurd h2 (by simp [h2f])⟩
  | case4 prev p ps h1 h2 hm ih =>
    rw [expandGo_cons_pat2_new _ _ _ h1 h2 hm]
    apply ih
    intro s hs
    rw [shift_new]
    rcases List.mem_append.mp hs with hsp | hsp
    · exact SatP_append _ _ _ (hprev s hsp)
    · have hsp2 : s = p := by simpa using hsp
      subst hsp2
      intro h0
      refine ⟨fun _ => ?_, fun h2f _ => absurd h2 (by simp [h2f])⟩
      exact List.mem_append_right _ (by simp)
  | case5 prev p ps h1 h2 h3 hm ih =>
    rw [expandGo_cons_pat3_mem _ _ _ h1 h2 h3 hm]
    apply ih
    intro s hs
    rw [← cons_shift]
    rcases List.mem_append.mp hs with hsp | hsp
    · exact hprev s hsp
    · have hsp2 : s = p := by simpa using hsp
      subst hsp2
      intro h0
      exact ⟨fun h2t => absurd h2t h2, fun _ _ => hm⟩
  | case6 prev p ps h1 h2 h3 hm ih =>
    rw [expandGo_cons_pat3_new _ _ _ h1 h2 h3 hm]
    apply ih
    intro s hs
    rw [shift_new]
    rcases List.mem_append.mp hs with hsp | hsp
    · exact SatP_append _ _ _ (hprev s hsp)
    · have hsp2 : s = p := by simpa using hsp
      subst hsp2
      intro h0
      refine ⟨fun h2t => absurd h2t h2, fun _ _ => ?_⟩
      exact List.mem_append_right _ (by simp)
  | case7 prev p ps h1 h2 h3 ih =>
    rw [expandGo_cons_none _ _ _ h1 h2 h3]
    apply ih
    intro s hs
    rw [← cons_shift]
    rcases List.mem_append.mp hs with hsp | hsp
    · exact hprev s hsp
    · have hsp2 : s = p := by simpa using hsp
      subst hsp2
      intro h0
      exact ⟨fun h2t => absurd h2t h2, fun _ h3t => absurd h3t h3⟩

lemma expandGo_noop (rest : List Name) : ∀ prev,
    (∀ s ∈ rest, SatP (prev ++ rest) s) → expandGo prev rest = prev ++ rest := by
  induction rest with
  | nil =>
    intro prev _
    rw [expandGo_nil]
    simp
  | cons p ps ih =>
    intro prev hsat
    have hp := hsat p (List.mem_cons_self _ _)
    have hrest : ∀ s ∈ ps, SatP ((prev ++ [p]) ++ ps) s := by
      intro s hs
      rw [← cons_shift]
      exact hsat s (List.mem_cons_of_mem _ hs)
    by_cases h1 : pat1 p = true
    · rw [expandGo_cons_pat1 _ _ _ h1, ih (prev ++ [p]) hrest, ← cons_shift]
    · by_cases h2 : pat2 p = true
      · have hmem : replaceDots p ∈ prev ++ p :: ps := (hp (by simpa using h1)).1 h2
        rw [expandGo_cons_pat2_mem _ _ _ h1 h2 hmem, ih (prev ++ [p]) hrest, ← cons_shift]
      · by_cases h3 : pat3 p = true
        · have hmem : rstripDots p ∈ prev ++ p :: ps :=
            (hp (by simpa using h1)).2 (by simpa using h2) h3
          rw [expandGo_cons_pat3_mem _ _ _ h1 h2 h3 hmem, ih (prev ++ [p]) hrest, ← cons_shift]
        · rw [expandGo_cons_none _ _ _ h1 h2 h3, ih (prev ++ [p]) hrest, ← cons_shift]

lemma nodup_concat {l : List Name} {a : Name} (h : l.Nodup) (ha : a ∉ l) :
    (l ++ [a]).Nodup := by
  simp [List.nodup_append, h, ha]

lemma expandGo_nodup (prev rest : List Name) (h : (prev ++ rest).Nodup) :
    (expandGo prev rest).Nodup := by
  induction prev, rest using expandGo.induct with
  | case1 prev =>
    rw [expandGo_nil]
    simpa using h
  | case2 prev p ps h1 ih =>
    rw [expandGo_cons_pat1 _ _ _ h1]
    exact ih (by rwa [← cons_shift])
  | case3 prev p ps h1 h2 hm ih =>
    rw [expandGo_cons_pat2_mem _ _ _ h1 h2 hm]
    exact ih (by rwa [← cons_shift])
  | case4 prev p ps h1 h2 hm ih =>
    rw [expandGo_cons_pat2_new _ _ _ h1 h2 hm]
    apply ih
    rw [shift_new]
    exact nodup_concat h hm
  | case5 prev p ps h1 h2 h3 hm ih =>
    rw [expandGo_cons_pat3_mem _ _ _ h1 h2 h3 hm]
    exact ih (by rwa [← cons_shift])
  | case6 prev p ps h1 h2 h3 hm ih =>
    rw [expandGo_cons_pat3_new _ _ _ h1 h2 h3 hm]
    apply ih
    rw [shift_new]
    exact nodup_concat h hm
  | case7 prev p ps h1 h2 h3 ih =>
    rw [expandGo_cons_none _ _ _ h1 h2 h3]
    exact ih (by rwa [← cons_shift])

/-- C6: the given-name expansion is idempotent (a second application of
`_process_middle_initials` returns exactly the list the first produced) and
a duplicate-free list stays duplicate-free, because each derived variant is
appended only when not already present. -/
theorem process_middle_initials_idem (l : List Name) :
    processMiddleInitials (processMiddleInitials l) = processMiddleInitials l ∧
    (l.Nodup → (processMiddleInitials l).Nodup) := by
  constructor
  · have hsat : ∀ s ∈ expandGo [] l, SatP (expandGo [] l) s :=
      expandGo_sat [] l (by intro s hs; cases hs)
    unfold processMiddleInitials
    rw [expandGo_noop (expandGo [] l) [] (by simpa using hsat)]
    simp
  · intro hnd
    unfold processMiddleInitials
    exact expandGo_nodup [] l (by simpa using hnd)

/-- C6 witness: a concrete duplicate-free list through the expansion. -/
theorem process_middle_initials_idem_check :
    givenDemo.Nodup ∧ (processMiddleInitials givenDemo).Nodup :=
  ⟨by decide, (process_middle_initials_idem givenDemo).2 (by decide)⟩



/-! ## Claims C7 and C8: `get_author_list` text assembly -/


lemma csplit_ne_nil (s : Name) : csplit s ≠ [] := by
  induction s using csplit.induct with
  | case1 => simp [csplit]
  | case2 c => simp [csplit]
  | case3 a b rest h ih => simp [csplit, h]
  | case4 a b rest h hm ih =>
    rw [csplit, if_neg h, hm]
    simp
  | case5 a b rest h p ps hm ih =>
    rw [csplit, if_neg h, hm]
    simp

lemma csplit_noCS (s : Name) (h : hasCS s = false) : csplit s = [s] := by
  induction s using csplit.induct with
  | case1 => rfl
  | case2 c => rfl
  | case3 a b rest hab ih =>
    rw [hasCS] at h
    simp [hab.1, hab.2] at h
  | case4 a b rest hab hm ih =>
    rw [hasCS] at h
    have h2 : hasCS (b :: rest) = false := by
      rcases Bool.or_eq_false_iff.mp h with ⟨_, h2⟩
      exact h2
    rw [ih h2] at hm
    cases hm
  | case5 a b rest hab p ps hm ih =>
    rw [hasCS] at h
    have h2 : hasCS (b :: rest) = false := by
      rcases Bool.or_eq_false_iff.mp h with ⟨_, h2⟩
      exact h2
    rw [ih h2] at hm
    injection hm with hp hps
    rw [csplit, if_neg hab]
    rw [show csplit (b :: rest) = p :: ps from by rw [ih h2, hp, hps]]
    rw [← hp, ← hps]



lemma csplit_sep (p t : Name) (h : hasCS p = false) :
    csplit (p ++ ',' :: ' ' :: t) = p :: csplit t := by
  induction p with
  | nil => simp [csplit]
  | cons c p' ih =>
    cases p' with
    | nil =>
      rw [show ([c] : Name) ++ ',' :: ' ' :: t = c :: ',' :: ' ' :: t from by simp]
      rw [csplit, if_neg (by simp)]
      rw [show (',' :: ' ' :: t : Name) = ([] : Name) ++ ',' :: ' ' :: t from by simp,
        ih rfl]
    | cons d p'' =>
      rw [hasCS] at h
      have hcd : ¬(c = ',' ∧ d = ' ') := by
        rintro ⟨e1, e2⟩
        simp [e1, e2] at h
      have h2 : hasCS (d :: p'') = false := by
        rcases Bool.or_eq_false_iff.mp h with ⟨_, h2⟩
        exact h2
      rw [show (c :: d :: p'' : Name) ++ ',' :: ' ' :: t =
            c :: d :: (p'' ++ ',' :: ' ' :: t) from by simp]
      rw [csplit, if_neg hcd]
      rw [show (d :: (p'' ++ ',' :: ' ' :: t) : Name) =
            (d :: p'') ++ ',' :: ' ' :: t from by simp]
      rw [ih h2]

lemma joinSep_concat (sep : Name) (init : List Name) (y : Name) (h : init ≠ []) :
    joinSep sep (init ++ [y]) = joinSep sep init ++ sep ++ y := by
  induction init with
  | nil => cases h rfl
  | cons p rest ih =>
    cases rest with
    | nil => simp [joinSep]
    | cons q rest2 =>
      calc joinSep sep ((p :: q :: rest2) ++ [y])
          = p ++ sep ++ joinSep sep ((q :: rest2) ++ [y]) := by
            rw [show (p :: q :: rest2) ++ [y] = p :: q :: (rest2 ++ [y]) from by simp]
            rw [show (q :: rest2) ++ [y] = q :: (rest2 ++ [y]) from by simp]
            simp only [joinSep]
        _ = p ++ sep ++ (joinSep sep (q :: rest2) ++ sep ++ y) := by
            rw [ih (by simp)]
        _ = joinSep sep (p :: q :: rest2) ++ sep ++ y := by
            simp only [joinSep]
            simp [List.append_assoc]

lemma csplit_join (pieces : List Name) (hne : pieces ≠ [])
    (h : ∀ p ∈ pieces, hasCS p = false) :
    csplit (joinSep commaSpaceS pieces) = pieces := by
  induction pieces with
  | nil => cases hne rfl
  | cons p rest ih =>
    cases rest with
    | nil => simpa [joinSep] using csplit_noCS p (h p (List.mem_cons_self _ _))
    | cons q rest2 =>
      rw [joinSep]
      rw [show p ++ commaSpaceS ++ joinSep commaSpaceS (q :: rest2) =
            p ++ ',' :: ' ' :: joinSep commaSpaceS (q :: rest2) from by
          simp [commaSpaceS, List.append_assoc]]
      rw [csplit_sep p _ (h p (List.mem_cons_self _ _))]
      rw [ih (by simp) (fun x hx => h x (List.mem_cons_of_mem _ hx))]

lemma hasCS_append_single (x : Name) (c : Char) (hc : c ≠ ' ') (h : hasCS x = false) :
    hasCS (x ++ [c]) = false := by
  induction x with
  | nil => rfl
  | cons a x' ih =>
    cases x' with
    | nil =>
      rw [show ([a] : Name) ++ [c] = [a, c] from by simp]
      rw [hasCS]
      simp [hasCS, hc]
    | cons b x'' =>
      rw [hasCS] at h
      rcases Bool.or_eq_false_iff.mp h with ⟨h1, h2⟩
      rw [show (a :: b :: x'' : Name) ++ [c] = a :: ((b :: x'') ++ [c]) from by simp]
      rw [show ((b :: x'' : Name) ++ [c]) = b :: (x'' ++ [c]) from by simp]
      rw [hasCS]
      rw [show (b :: (x'' ++ [c]) : Name) = (b :: x'') ++ [c] from by simp]
      rw [ih h2]
      simp [h1]

lemma hasCS_ensureDot (x : Name) (h : hasCS x = false) : hasCS (ensureDot x) = false := by
  unfold ensureDot
  split
  · exact h
  · exact hasCS_append_single x '.' (by decide) h

lemma ensureDot_getLast (x : Name) : (ensureDot x).getLast? = some '.' ∨ x = [] := by
  unfold ensureDot
  split
  · left
    assumption
  · left
    exact List.getLast?_concat x



lemma textPath_single (style x : Name) : textPath style [x] = .ok (.textR x) := by
  simp [textPath]

lemma textPath_multi (style : Name) (init : List Name) (lastEl : Name)
    (hinit : init ≠ []) (hlast : lastEl ≠ []) :
    textPath style (init ++ [lastEl]) =
      .ok (.textR (joinSep commaSpaceS init ++
        (if style = flylightS then amperS else commaSpaceS) ++ ensureDot lastEl)) := by
  cases hc : lastEl.getLast? with
  | none =>
    exfalso
    rw [List.getLast?_eq_none_iff] at hc
    exact hlast hc
  | some c =>
    have hensure : (if c = '.' then lastEl else lastEl ++ ['.']) = ensureDot lastEl := by
      unfold ensureDot
      rw [hc]
      by_cases hcd : c = '.'
      · simp [hcd]
      · simp [hcd, Option.some.injEq]
    simp [textPath, List.getLast?_concat, List.dropLast_concat, hinit, hc, hensure]

lemma getAuthorList_text_of_list (rec : Rec) (orcidFlag : Bool) (style : Name)
    (pm : Option (List Name)) (l : List Name)
    (hl : getAuthorList rec orcidFlag style listS pm = .ok (.listR l)) :
    getAuthorList rec orcidFlag style textS pm = textPath style l ∧ l ≠ [] := by
  unfold getAuthorList at hl ⊢
  cases hfe : (match (if rec.DOI.isNone then rec.creators else rec.author) with
      | some a => some a
      | none => rec.editor) with
  | none =>
    rw [hfe] at hl
    simp at hl
  | some author =>
    rw [hfe] at hl
    simp only [] at hl ⊢
    unfold authListCore at hl ⊢
    cases hra : renderAll rec.DOI.isNone orcidFlag style pm author with
    | error e =>
      rw [hra] at hl
      simp at hl
    | ok lst =>
      rw [hra] at hl
      simp only [] at hl ⊢
      by_cases hnil : lst = []
      · rw [if_pos hnil] at hl
        simp at hl
      · rw [if_neg hnil] at hl
        have hll : lst = l := by simpa using hl
        subst hll
        rw [if_neg hnil, if_neg (by decide : ¬(textS = listS))]
        exact ⟨rfl, hnil⟩



lemma textPath_empty_last (style : Name) (init : List Name) (hinit : init ≠ []) :
    textPath style (init ++ [([] : Name)]) = .error .indexError := by
  simp [textPath, List.getLast?_concat, List.dropLast_concat, hinit]

/-- C8 (amended): for every record with at least two displayable authors
(rendered entries, none empty), the text mode joins all but the last entry
with `", "`, joins the last entry with `", "` (style `dis`) or `" & "`
(style `flylight`) — not `"; "` — and the result ends with a period (one is
appended to the final entry when absent). -/
theorem author_list_join (rec : Rec) (orcidFlag : Bool) (style : Name)
    (pm : Option (List Name)) (l : List Name)
    (hl : getAuthorList rec orcidFlag style listS pm = .ok (.listR l))
    (hlen : 2 ≤ l.length) (hne : ∀ x ∈ l, x ≠ []) :
    getAuthorList rec orcidFlag style textS pm =
      .ok (.textR (joinSep commaSpaceS l.dropLast ++
        (if style = flylightS then amperS else commaSpaceS) ++
        ensureDot (l.getLastD []))) ∧
    (joinSep commaSpaceS l.dropLast ++
        (if style = flylightS then amperS else commaSpaceS) ++
        ensureDot (l.getLastD [])).getLast? = some '.' := by
  obtain ⟨htext, hnil⟩ := getAuthorList_text_of_list rec orcidFlag style pm l hl
  rcases List.eq_nil_or_concat l with rfl | ⟨init, x, hcat⟩
  · cases hnil rfl
  · rw [List.concat_eq_append] at hcat
    subst hcat
    have hinit : init ≠ [] := by
      intro h0
      subst h0
      simp at hlen
    have hx : x ≠ [] := hne x (by simp)
    have hEd : ensureDot x ≠ [] := by
      unfold ensureDot
      split
      · exact hx
      · simp
    rw [htext, textPath_multi style init x hinit hx]
    rw [List.dropLast_concat, List.getLastD_concat]
    refine ⟨rfl, ?_⟩
    rw [List.getLast?_append_of_ne_nil _ hEd]
    rcases ensureDot_getLast x with h | h
    · exact h
    · exact absurd h hx

/-- C8 witness: the three-author record rendered in text mode. -/
theorem author_list_join_check :
    getAuthorList recThreeAuth false disS textS none =
      .ok (.textR (joinSep commaSpaceS
          ([ "Alpha".data, "Beta".data, "Gamma".data] : List Name).dropLast ++
        (if disS = flylightS then amperS else commaSpaceS) ++
        ensureDot (([ "Alpha".data, "Beta".data, "Gamma".data] : List Name).getLastD []))) ∧
    (joinSep commaSpaceS ([ "Alpha".data, "Beta".data, "Gamma".data] : List Name).dropLast ++
        (if disS = flylightS then amperS else commaSpaceS) ++
        ensureDot (([ "Alpha".data, "Beta".data, "Gamma".data] : List Name).getLastD
          [])).getLast? = some '.' :=
  author_list_join recThreeAuth false disS none
    [ "Alpha".data, "Beta".data, "Gamma".data] rfl (by decide) (by decide)

/-- C8 counterexample: with style `dis` the last entry is joined with
`", "`, not `"; "` nor `" & "`: the produced string contains neither
separator the claim names. -/
theorem author_list_join_cex :
    getAuthorList recThreeAuth false disS textS none =
      .ok (.textR ( "Alpha, Beta, Gamma.".data)) ∧
    ( "Alpha, Beta, Gamma.".data : Name) ≠ ( "Alpha, Beta; Gamma.".data : Name) ∧
    hasSub semiSpaceS ( "Alpha, Beta, Gamma.".data) = false ∧
    hasSub amperS ( "Alpha, Beta, Gamma.".data) = false :=
  ⟨rfl, by decide, by decide, by decide⟩

/-- C7 (amended): splitting the `dis`-style text result on `", "` recovers
the length of the list result provided no rendered author entry itself
contains `", "` (e.g. authors rendered from a family name or bare name
only); entries of the form `"Family, Initials"` contain the separator and
break the count. -/
theorem author_split_roundtrip (rec : Rec) (orcidFlag : Bool) (pm : Option (List Name))
    (l : List Name) (t : Name)
    (hl : getAuthorList rec orcidFlag disS listS pm = .ok (.listR l))
    (ht : getAuthorList rec orcidFlag disS textS pm = .ok (.textR t))
    (hcs : ∀ x ∈ l, hasCS x = false) :
    (csplit t).length = l.length := by
  obtain ⟨htext, hnil⟩ := getAuthorList_text_of_list rec orcidFlag disS pm l hl
  rw [htext] at ht
  rcases List.eq_nil_or_concat l with rfl | ⟨init, x, hcat⟩
  · cases hnil rfl
  · rw [List.concat_eq_append] at hcat
    subst hcat
    by_cases hinit : init = []
    · subst hinit
      simp only [List.nil_append] at ht hcs ⊢
      rw [textPath_single] at ht
      have htx : x = t := by simpa using ht
      subst htx
      rw [csplit_noCS x (hcs x (by simp))]
    · by_cases hx : x = []
      · subst hx
        rw [textPath_empty_last disS init hinit] at ht
        cases ht
      · rw [textPath_multi disS init x hinit hx] at ht
        have hpunc : (if disS = flylightS then amperS else commaSpaceS) = commaSpaceS := by
          decide
        rw [hpunc] at ht
        have htx : joinSep commaSpaceS init ++ commaSpaceS ++ ensureDot x = t := by
          simpa using ht
        subst htx
        rw [show joinSep commaSpaceS init ++ commaSpaceS ++ ensureDot x =
              joinSep commaSpaceS (init ++ [ensureDot x]) from
            (joinSep_concat _ init _ hinit).symm]
        rw [csplit_join (init ++ [ensureDot x]) (by simp) ?_]
        · simp
        · intro p hp
          rcases List.mem_append.mp hp with h | h
          · exact hcs p (List.mem_append_left _ h)
          · have hpe : p = ensureDot x := by simpa using h
            subst hpe
            exact hasCS_ensureDot x (hcs x (by simp))

/-- C7 witness: family-only entries are `", "`-free, and the split count
matches the list length. -/
theorem author_split_roundtrip_check :
    (csplit ( "Alpha, Beta, Gamma.".data)).length =
      ([ "Alpha".data, "Beta".data, "Gamma".data] : List Name).length :=
  author_split_roundtrip recThreeAuth false none
    [ "Alpha".data, "Beta".data, "Gamma".data] ( "Alpha, Beta, Gamma.".data)
    rfl rfl (by decide)

/-- C7 counterexample: two given-plus-family authors render as
`"Smith, A, Jones, B."`, whose `", "`-split has 4 elements while the list
result has 2. -/
theorem author_split_roundtrip_cex :
    getAuthorList recTwoAuth false disS textS none =
      .ok (.textR ( "Smith, A, Jones, B.".data)) ∧
    getAuthorList recTwoAuth false disS listS none =
      .ok (.listR [ "Smith, A".data, "Jones, B".data]) ∧
    (csplit ( "Smith, A, Jones, B.".data)).length ≠
      ([ "Smith, A".data, "Jones, B".data] : List Name).length :=
  ⟨rfl, rfl, by decide⟩


end DoiCommon
